import Mathlib

/-!
Verification of the core algorithms of the `rpi-smartgadget` repository
(Sensirion Smart Gadget BLE data-logger client).

The development shallowly embeds, in order:
* the pass-merge algorithm of `SHT3XService.fetch_logged_data` (`sht3x.py`,
  the nested `merge` and `bad_timestamps` helpers),
* the per-pass timeline construction of the notification delegate
  (`NotificationHandler.prepare` is referenced by `SHT3X.fetch_logged_data`
  but its definition is absent from the checked-in sources, so it is
  modelled from the specification),
* the single-value completion logic of `NotificationHandler.handleNotification`
  (`smart_gadget.py`),
* the connection retry loop of `SmartGadgetService._connect` /
  `connect_gadgets` (`service.py`),
* the reconciliation iteration loop of `SHT3XService.fetch_logged_data`.

Machine floats carried in notification payloads are treated as an opaque
value type `V` with decidable equality: the source only ever tests them
for equality (`v1 != v2`) and for `None`-ness, never does arithmetic on
them.
-/

/-- One timeline slot as handled by `SHT3XService.fetch_logged_data`:
a two-element row `[timestamp_ms, value]` where the value is a float or
`None` ("not yet received"). -/
structure Sample (V : Type) where
  ts : Int
  val : Option V
deriving DecidableEq

/-- A (possibly sparse) timeline: the row list produced by one download pass. -/
abbrev Timeline (V : Type) := List (Sample V)

/-- Python `round` applied to the exact quotient `num / den` (round half to
even).  The source computes `round(abs(latest[0][0] - original[0][0]) /
logger_interval)` on an IEEE-754 double; the double agrees with the exact
rational rounding except when representation error crosses a half-integer
boundary, and no verified property below depends on the exact value of
this best-guess index. -/
def pyRound (num den : Nat) : Nat :=
  let q := num / den
  let r := num % den
  if 2 * r < den then q
  else if den < 2 * r then q + 1
  else if q % 2 = 0 then q else q + 1

/-- `timeline[0][0]`, the timestamp of the first row (`0` for an empty list;
`merge` only evaluates it on non-empty lists, see `MergeResult.indexError`). -/
def headTs {V : Type} : Timeline V → Int
  | [] => 0
  | s :: _ => s.ts

/-- The best-guess alignment offset of `merge`:
`max(0, round(abs(latest[0][0] - original[0][0]) / logger_interval) - 1)`.
The truncated subtraction on `Nat` implements the `max(0, _)`. -/
def mergeIndex {V : Type} (interval : Nat) (original latest : Timeline V) : Nat :=
  pyRound (headTs latest - headTs original).natAbs interval - 1

/-- The value the `latest` pass supplies for position `p` of `original` when
the two lists are aligned at offset `off` (`latest[p - off]`, when that row
exists and its value is not `None`). -/
def writeVal {V : Type} (latest : Timeline V) (off p : Nat) : Option V :=
  if off ≤ p then (latest.get? (p - off)).bind Sample.val else none

/-- The final write loop of `merge` (`sht3x.py`): starting at row index `p`
of `original`, overwrite `row[1]` with the aligned `latest` value whenever
that value is not `None`.  Timestamps (`row[0]`) are never modified. -/
def mergeWriteAux {V : Type} (latest : Timeline V) (off : Nat) :
    Nat → Timeline V → Timeline V
  | _, [] => []
  | p, s :: rest =>
      ⟨s.ts, (writeVal latest off p).or s.val⟩ :: mergeWriteAux latest off (p + 1) rest

/-- The write loop of `merge` over the whole `original` list. -/
def mergeWrite {V : Type} (latest : Timeline V) (off : Nat)
    (original : Timeline V) : Timeline V :=
  mergeWriteAux latest off 0 original

/-- Whether the inner `while` scan of `merge` finds a value mismatch at
alignment offset `off`: some pair `original[off + j]`, `latest[j]` holds two
non-`None` values that differ. -/
def conflictAt {V : Type} [DecidableEq V]
    (original latest : Timeline V) (off : Nat) : Bool :=
  (List.range latest.length).any fun j =>
    match (original.get? (off + j)).bind Sample.val,
          (latest.get? j).bind Sample.val with
    | some v1, some v2 => decide (v1 ≠ v2)
    | _, _ => false

/-- The `for i in indices` alignment loop of `merge`.  Mirrors the source
control flow: a negative candidate is skipped; at the first non-negative
candidate the `while` scan runs, and on a mismatch the assertion
`assert index != indices[-1]` fires only when the current candidate equals
the last entry of `indices`; in every case the trailing unconditional
`break` then leaves the loop with `index` equal to that first non-negative
candidate.  If the list were exhausted, `index` would keep its pre-loop
value `fallback`. -/
def alignLoop {V : Type} [DecidableEq V] (original latest : Timeline V)
    (lastIdx : Int) (fallback : Nat) : List Int → Except Unit Nat
  | [] => .ok fallback
  | i :: rest =>
      if i < 0 then alignLoop original latest lastIdx fallback rest
      else if conflictAt original latest i.toNat && i == lastIdx then .error ()
      else .ok i.toNat

/-- Outcome of one call to the nested `merge` of
`SHT3XService.fetch_logged_data`: either the merged list, or the Python
exception the call raises. -/
inductive MergeResult (V : Type) where
  /-- `merge` returned normally; `original` now holds this list. -/
  | ok (timeline : Timeline V)
  /-- the `merging value mismatch` assertion fired. -/
  | assertionError
  /-- `original[0][0]` raised `IndexError` (`original` empty, `latest` not). -/
  | indexError
  /-- division by `logger_interval == 0` raised `ZeroDivisionError`. -/
  | zeroDivisionError
deriving DecidableEq

/-- The nested `merge(logger_interval, original, latest)` of
`SHT3XService.fetch_logged_data` (`sht3x.py`), as a pure function from the
two row lists to the updated `original` (the source mutates `original` in
place). -/
def merge {V : Type} [DecidableEq V] (interval : Nat)
    (original latest : Timeline V) : MergeResult V :=
  if latest.isEmpty then .ok original
  else if original.isEmpty then .indexError
  else if interval = 0 then .zeroDivisionError
  else
    let i0 := mergeIndex interval original latest
    let indices : List Int := [(i0 : Int), i0 - 1, i0 + 1, i0 - 2, i0 + 2]
    match alignLoop original latest ((i0 : Int) + 2) i0 indices with
    | .error _ => .assertionError
    | .ok off => .ok (mergeWrite latest off original)

/-- The nested `bad_timestamps` helper: the timestamps of the rows whose
value is still `None`. -/
def bad_timestamps {V : Type} (array : Timeline V) : List Int :=
  (array.filter fun s => s.val.isNone).map Sample.ts

/-- Number of rows of a timeline holding a non-`None` value. -/
def countFilled {V : Type} (l : Timeline V) : Nat :=
  l.countP fun s => s.val.isSome

-- ### Basic lemmas about the merge embedding

theorem mergeWriteAux_get? {V : Type} (latest : Timeline V) (off : Nat) :
    ∀ (l : Timeline V) (p k : Nat),
      (mergeWriteAux latest off p l).get? k =
        (l.get? k).map fun s => ⟨s.ts, (writeVal latest off (p + k)).or s.val⟩ := by
  intro l
  induction l with
  | nil => intro p k; simp [mergeWriteAux]
  | cons s rest ih =>
      intro p k
      cases k with
      | zero => simp [mergeWriteAux]
      | succ k =>
          simp only [mergeWriteAux, List.get?_cons_succ]
          rw [ih (p + 1) k]
          have : p + 1 + k = p + (k + 1) := by omega
          rw [this]

theorem mergeWrite_get? {V : Type} (latest : Timeline V) (off : Nat)
    (original : Timeline V) (p : Nat) :
    (mergeWrite latest off original).get? p =
      (original.get? p).map fun s => ⟨s.ts, (writeVal latest off p).or s.val⟩ := by
  have h := mergeWriteAux_get? latest off original 0 p
  simpa [mergeWrite] using h

theorem mergeWriteAux_length {V : Type} (latest : Timeline V) (off : Nat) :
    ∀ (l : Timeline V) (p : Nat),
      (mergeWriteAux latest off p l).length = l.length := by
  intro l
  induction l with
  | nil => intro p; simp [mergeWriteAux]
  | cons s rest ih => intro p; simp [mergeWriteAux, ih]

theorem mergeWrite_length {V : Type} (latest : Timeline V) (off : Nat)
    (original : Timeline V) :
    (mergeWrite latest off original).length = original.length :=
  mergeWriteAux_length latest off original 0

theorem headTs_mergeWrite {V : Type} (latest : Timeline V) (off : Nat)
    (original : Timeline V) :
    headTs (mergeWrite latest off original) = headTs original := by
  cases original with
  | nil => rfl
  | cons s rest => rfl

/-- The alignment loop always selects the first candidate index (the
best-guess offset itself, which is never negative), because the trailing
`break` of the `for` body is unconditional; in particular the mismatch
assertion, which could only fire at the last candidate, never fires. -/
theorem alignLoop_first {V : Type} [DecidableEq V]
    (original latest : Timeline V) (i0 : Nat) (rest : List Int) :
    alignLoop original latest ((i0 : Int) + 2) i0 ((i0 : Int) :: rest) =
      .ok i0 := by
  have h1 : ¬ ((i0 : Int) < 0) := by omega
  have h2 : ((i0 : Int) == (i0 : Int) + 2) = false := by
    simp [beq_iff_eq]
  simp [alignLoop, h1, h2]

/-- On non-degenerate inputs `merge` always succeeds and performs the write
loop at the best-guess offset. -/
theorem merge_eq_write {V : Type} [DecidableEq V] (interval : Nat)
    (original latest : Timeline V)
    (hlat : latest ≠ []) (horig : original ≠ []) (hint : interval ≠ 0) :
    merge interval original latest =
      .ok (mergeWrite latest (mergeIndex interval original latest) original) := by
  have hlat' : latest.isEmpty = false := by
    cases latest with
    | nil => exact absurd rfl hlat
    | cons a l => rfl
  have horig' : original.isEmpty = false := by
    cases original with
    | nil => exact absurd rfl horig
    | cons a l => rfl
  simp only [merge, hlat', horig', hint, Bool.false_eq_true, if_false, if_neg hint,
    alignLoop_first]

theorem merge_nil_latest {V : Type} [DecidableEq V] (interval : Nat)
    (original : Timeline V) :
    merge interval original [] = .ok original := by
  simp [merge]

theorem ne_nil_of_isEmpty_eq_false {α : Type} {l : List α}
    (h : l.isEmpty = false) : l ≠ [] := by
  cases l with
  | nil => simp [List.isEmpty] at h
  | cons a t => simp

theorem merge_nil_original {V : Type} [DecidableEq V] (interval : Nat)
    {latest : Timeline V} (h : latest ≠ []) :
    merge interval [] latest = .indexError := by
  have h' : latest.isEmpty = false := by
    cases latest with
    | nil => exact absurd rfl h
    | cons a l => rfl
  simp [merge, h']

theorem merge_zero_interval {V : Type} [DecidableEq V]
    {original latest : Timeline V} (hlat : latest ≠ []) (horig : original ≠ []) :
    merge 0 original latest = .zeroDivisionError := by
  have hlat' : latest.isEmpty = false := by
    cases latest with
    | nil => exact absurd rfl hlat
    | cons a l => rfl
  have horig' : original.isEmpty = false := by
    cases original with
    | nil => exact absurd rfl horig
    | cons a l => rfl
  simp [merge, hlat', horig']

/-- Inversion for a successful `merge`: either `latest` was empty and the
original list is returned untouched, or all guards passed and the write
loop ran at the best-guess offset. -/
theorem merge_ok_inv {V : Type} [DecidableEq V]
    {interval : Nat} {original latest result : Timeline V}
    (h : merge interval original latest = .ok result) :
    (latest = [] ∧ result = original) ∨
    (latest ≠ [] ∧ original ≠ [] ∧ interval ≠ 0 ∧
      result = mergeWrite latest (mergeIndex interval original latest) original) := by
  by_cases hlat : latest.isEmpty
  · left
    have hl : latest = [] := by
      cases latest with
      | nil => rfl
      | cons a l => simp [List.isEmpty] at hlat
    subst hl
    rw [merge_nil_latest] at h
    exact ⟨rfl, (MergeResult.ok.injEq _ _).mp h.symm⟩
  · right
    have hlat' : latest ≠ [] :=
      ne_nil_of_isEmpty_eq_false (Bool.of_not_eq_true hlat)
    by_cases horig : original.isEmpty
    · exfalso
      have ho : original = [] := by
        cases original with
        | nil => rfl
        | cons a l => simp [List.isEmpty] at horig
      subst ho
      rw [merge_nil_original interval hlat'] at h
      exact MergeResult.noConfusion h
    · have horig' : original ≠ [] :=
        ne_nil_of_isEmpty_eq_false (Bool.of_not_eq_true horig)
      by_cases hint : interval = 0
      · exfalso
        subst hint
        rw [merge_zero_interval hlat' horig'] at h
        exact MergeResult.noConfusion h
      · rw [merge_eq_write interval original latest hlat' horig' hint] at h
        exact ⟨hlat', horig', hint, ((MergeResult.ok.injEq _ _).mp h).symm⟩

/-- `merge` can never raise the `merging value mismatch` assertion, over any
inputs: the alignment loop only ever examines the first candidate offset,
and the assertion compares that candidate against the last one. -/
theorem merge_ne_assertionError {V : Type} [DecidableEq V]
    (interval : Nat) (original latest : Timeline V) :
    merge interval original latest ≠ .assertionError := by
  by_cases hlat : latest.isEmpty
  · have hl : latest = [] := by
      cases latest with
      | nil => rfl
      | cons a l => simp [List.isEmpty] at hlat
    subst hl
    rw [merge_nil_latest]
    exact fun h => MergeResult.noConfusion h
  · have hlat' : latest ≠ [] :=
      ne_nil_of_isEmpty_eq_false (Bool.of_not_eq_true hlat)
    by_cases horig : original.isEmpty
    · have ho : original = [] := by
        cases original with
        | nil => rfl
        | cons a l => simp [List.isEmpty] at horig
      subst ho
      rw [merge_nil_original interval hlat']
      exact fun h => MergeResult.noConfusion h
    · have horig' : original ≠ [] :=
        ne_nil_of_isEmpty_eq_false (Bool.of_not_eq_true horig)
      by_cases hint : interval = 0
      · subst hint
        rw [merge_zero_interval hlat' horig']
        exact fun h => MergeResult.noConfusion h
      · rw [merge_eq_write interval original latest hlat' horig' hint]
        exact fun h => MergeResult.noConfusion h

/-- A conflict-free alignment means the two lists agree wherever both hold
a non-`None` value. -/
theorem conflict_free_agrees {V : Type} [DecidableEq V]
    {original latest : Timeline V} {off : Nat}
    (h : conflictAt original latest off = false) :
    ∀ j a b, (original.get? (off + j)).bind Sample.val = some a →
      (latest.get? j).bind Sample.val = some b → a = b := by
  intro j a b ha hb
  by_contra hne
  have hj : j < latest.length := by
    by_contra hj
    push_neg at hj
    rw [List.get?_eq_none.mpr hj] at hb
    exact Option.noConfusion hb
  have hmem : j ∈ List.range latest.length := List.mem_range.mpr hj
  have hfalse := List.any_eq_false.mp h j hmem
  rw [ha, hb] at hfalse
  simp at hfalse
  exact hne hfalse

/-- C1: over all inputs, the nested `merge` of
`SHT3XService.fetch_logged_data` never raises the `merging value mismatch`
assertion, and at a concrete pair of passes that disagree on a shared
aligned slot (both rows at timestamp `0`, values `1` and `2`, best-guess
offset `0`) it completes normally and silently replaces the accumulated
value `1` with the new pass's value `2`.  This contradicts the claim that
a disagreement on a shared non-missing slot always raises an integrity
error. -/
theorem merge_conflict_assertion_never_fires :
    (∀ (V : Type) (inst : DecidableEq V) (interval : Nat)
        (original latest : Timeline V),
      @merge V inst interval original latest ≠ .assertionError) ∧
    conflictAt [(⟨0, some 1⟩ : Sample Int)] [⟨0, some 2⟩]
      (mergeIndex 1000 [(⟨0, some 1⟩ : Sample Int)] [⟨0, some 2⟩]) = true ∧
    merge 1000 [(⟨0, some 1⟩ : Sample Int)] [⟨0, some 2⟩] = .ok [⟨0, some 2⟩] :=
  ⟨fun V inst interval original latest =>
    @merge_ne_assertionError V inst interval original latest,
   by decide, by decide⟩

/-- C2: when the new pass does not conflict with the accumulated timeline at
the alignment offset that `merge` chooses, a successful merge preserves
every timestamp, keeps the value of every already-filled slot unchanged,
and any slot whose value changes was missing (`None`) before and receives
exactly the new pass's aligned value. -/
theorem merge_conflict_free_preserves_filled_slots
    {V : Type} [DecidableEq V] (interval : Nat)
    (original latest result : Timeline V)
    (hok : merge interval original latest = .ok result)
    (hnc : conflictAt original latest (mergeIndex interval original latest) = false) :
    (∀ p : Nat, (result.get? p).map Sample.ts = (original.get? p).map Sample.ts) ∧
    (∀ (p : Nat) (v : V), (original.get? p).bind Sample.val = some v →
      (result.get? p).bind Sample.val = some v) ∧
    (∀ p : Nat,
      (result.get? p).bind Sample.val ≠ (original.get? p).bind Sample.val →
      (original.get? p).bind Sample.val = none ∧
      (result.get? p).bind Sample.val =
        writeVal latest (mergeIndex interval original latest) p) := by
  rcases merge_ok_inv hok with ⟨hlat, hres⟩ | ⟨hlat, horig, hint, hres⟩
  · subst hres
    refine ⟨fun p => rfl, fun p v hv => hv, fun p hne => absurd rfl hne⟩
  · subst hres
    set off := mergeIndex interval original latest with hoff
    have agree := conflict_free_agrees hnc
    have hw : ∀ u p, writeVal latest off p = some u → off ≤ p ∧
        (latest.get? (p - off)).bind Sample.val = some u := by
      intro u p h
      by_cases hle : off ≤ p
      · exact ⟨hle, by simpa [writeVal, hle] using h⟩
      · simp [writeVal, hle] at h
    refine ⟨?_, ?_, ?_⟩
    · intro p
      rw [mergeWrite_get?]
      cases hp : original.get? p <;> rfl
    · intro p v hv
      rw [mergeWrite_get?]
      cases hp : original.get? p with
      | none => rw [hp] at hv; exact absurd hv (by simp)
      | some s =>
          rw [hp] at hv
          simp only [Option.some_bind] at hv
          simp only [Option.map_some', Option.some_bind]
          cases hwv : writeVal latest off p with
          | none => simp [hv]
          | some u =>
              obtain ⟨hle, hu⟩ := hw u p hwv
              have hpeq : off + (p - off) = p := by omega
              have hval : (original.get? (off + (p - off))).bind Sample.val = some v := by
                rw [hpeq, hp]; simpa using hv
              have : v = u := agree (p - off) v u hval hu
              subst this
              simp
    · intro p hne
      rw [mergeWrite_get?] at hne ⊢
      cases hp : original.get? p with
      | none => rw [hp] at hne; exact absurd rfl hne
      | some s =>
          rw [hp] at hne
          simp only [Option.map_some', Option.some_bind] at hne ⊢
          cases hwv : writeVal latest off p with
          | none => rw [hwv] at hne; simp at hne
          | some u =>
              rw [hwv] at hne
              refine ⟨?_, rfl⟩
              cases hsv : s.val with
              | none => rfl
              | some v =>
                  exfalso
                  obtain ⟨hle, hu⟩ := hw u p hwv
                  have hpeq : off + (p - off) = p := by omega
                  have hval : (original.get? (off + (p - off))).bind Sample.val
                      = some v := by
                    rw [hpeq, hp]; simp [hsv]
                  have huv : v = u := agree (p - off) v u hval hu
                  rw [hsv, huv] at hne
                  exact hne rfl

theorem countFilled_mergeWriteAux {V : Type} (latest : Timeline V) (off : Nat) :
    ∀ (l : Timeline V) (p : Nat),
      countFilled l ≤ countFilled (mergeWriteAux latest off p l) := by
  intro l
  induction l with
  | nil => intro p; exact Nat.le_refl _
  | cons s rest ih =>
      intro p
      have hrest := ih (p + 1)
      simp only [countFilled, mergeWriteAux, List.countP_cons] at hrest ⊢
      have hhead : (if s.val.isSome = true then 1 else 0) ≤
          (if ((writeVal latest off p).or s.val).isSome = true then 1 else 0) := by
        cases hwv : writeVal latest off p with
        | none => simp [Option.none_or]
        | some u => cases hsv : s.val.isSome <;> simp
      omega

/-- C6: a successful merge never decreases the number of slots holding a
non-`None` value: the write loop only ever replaces a slot's value with a
non-`None` value or leaves the slot alone. -/
theorem merge_filled_count_monotone {V : Type} [DecidableEq V]
    (interval : Nat) (original latest result : Timeline V)
    (hok : merge interval original latest = .ok result) :
    countFilled original ≤ countFilled result := by
  rcases merge_ok_inv hok with ⟨hlat, hres⟩ | ⟨hlat, horig, hint, hres⟩
  · subst hres; exact Nat.le_refl _
  · subst hres; exact countFilled_mergeWriteAux latest _ original 0

/-- C6 witness: a concrete successful merge filling one gap. -/
theorem merge_filled_count_monotone_witness :
    merge 1000 [(⟨0, some 1⟩ : Sample Int), ⟨1000, none⟩]
        [⟨0, some 1⟩, ⟨1000, some 7⟩] =
      .ok [⟨0, some 1⟩, ⟨1000, some 7⟩] ∧
    countFilled [(⟨0, some 1⟩ : Sample Int), ⟨1000, none⟩] ≤
      countFilled [(⟨0, some 1⟩ : Sample Int), ⟨1000, some 7⟩] :=
  ⟨by decide,
   merge_filled_count_monotone 1000
     [(⟨0, some 1⟩ : Sample Int), ⟨1000, none⟩]
     [⟨0, some 1⟩, ⟨1000, some 7⟩]
     [⟨0, some 1⟩, ⟨1000, some 7⟩] (by decide)⟩

theorem pyRound_zero_num (den : Nat) : pyRound 0 den = 0 := by
  unfold pyRound
  simp only [Nat.zero_div, Nat.zero_mod, Nat.mul_zero]
  split
  · rfl
  · split
    · omega
    · simp

theorem mergeIndex_self {V : Type} (interval : Nat) (T : Timeline V) :
    mergeIndex interval T T = 0 := by
  unfold mergeIndex
  rw [sub_self, Int.natAbs_zero, pyRound_zero_num]

theorem mergeWrite_self {V : Type} (T : Timeline V) : mergeWrite T 0 T = T := by
  apply List.ext_get?
  intro p
  rw [mergeWrite_get?]
  cases hp : T.get? p with
  | none => rfl
  | some s =>
      obtain ⟨ts, val⟩ := s
      simp only [Option.map_some']
      have hwv : writeVal T 0 p = val := by
        unfold writeVal
        rw [if_pos (Nat.zero_le p), Nat.sub_zero, hp]
        rfl
      rw [hwv]
      cases val <;> rfl

/-- C7: merging a timeline with itself returns it unchanged (the best-guess
offset is `0` because the head timestamps coincide, and every slot is then
overwritten with its own value).  A `logger_interval` of zero would instead
raise `ZeroDivisionError`; the interval read back from the device is a
positive number of milliseconds. -/
theorem merge_self_identity {V : Type} [DecidableEq V]
    (interval : Nat) (hint : interval ≠ 0) (T : Timeline V) :
    merge interval T T = .ok T := by
  cases hT : T with
  | nil => exact merge_nil_latest interval []
  | cons s rest =>
      have hne : s :: rest ≠ ([] : Timeline V) := by simp
      rw [merge_eq_write interval _ _ hne hne hint, mergeIndex_self,
        mergeWrite_self]

/-- C7 witness: a concrete self-merge, gaps included. -/
theorem merge_self_identity_witness :
    (1000 : Nat) ≠ 0 ∧
    merge 1000 [(⟨0, some 2⟩ : Sample Int), ⟨1000, none⟩, ⟨2000, some 5⟩]
        [⟨0, some 2⟩, ⟨1000, none⟩, ⟨2000, some 5⟩] =
      .ok [⟨0, some 2⟩, ⟨1000, none⟩, ⟨2000, some 5⟩] :=
  ⟨by decide, merge_self_identity 1000 (by decide) _⟩

/-- Accumulating two passes in sequence: merge `A` into the accumulated
list, then `B`; an exception raised by the first merge aborts the whole
call, as in the source's iteration loop. -/
def mergeSeq {V : Type} [DecidableEq V] (interval : Nat)
    (acc A B : Timeline V) : MergeResult V :=
  match merge interval acc A with
  | .ok t => merge interval t B
  | e => e

/-- Passes `A` and `B` never supply two differing non-`None` values for the
same slot of the accumulated list (each pass aligned at the offset `merge`
chooses for it). -/
def crossConflictFree {V : Type} [DecidableEq V] (interval : Nat)
    (acc A B : Timeline V) : Bool :=
  (List.range acc.length).all fun p =>
    match writeVal A (mergeIndex interval acc A) p,
          writeVal B (mergeIndex interval acc B) p with
    | some a, some b => a == b
    | _, _ => true

theorem crossConflictFree_agrees {V : Type} [DecidableEq V]
    {interval : Nat} {acc A B : Timeline V}
    (h : crossConflictFree interval acc A B = true) :
    ∀ p, p < acc.length → ∀ a b,
      writeVal A (mergeIndex interval acc A) p = some a →
      writeVal B (mergeIndex interval acc B) p = some b → a = b := by
  intro p hp a b ha hb
  have hall := List.all_eq_true.mp h p (List.mem_range.mpr hp)
  rw [ha, hb] at hall
  simpa using hall

theorem mergeWrite_ne_nil {V : Type} (latest : Timeline V) (off : Nat)
    {original : Timeline V} (h : original ≠ []) :
    mergeWrite latest off original ≠ [] := by
  intro hc
  have hlen := mergeWrite_length latest off original
  rw [hc] at hlen
  have : original.length ≠ 0 := fun h0 => h (List.length_eq_zero.mp h0)
  exact this hlen.symm

theorem mergeIndex_mergeWrite {V : Type} (interval : Nat)
    (acc X latest : Timeline V) (off : Nat) :
    mergeIndex interval (mergeWrite latest off acc) X =
      mergeIndex interval acc X := by
  unfold mergeIndex
  rw [headTs_mergeWrite]

/-- C5: for two passes that provide no conflicting non-`None` values for
any shared slot of the accumulated list, merging pass `A` then pass `B`
yields the same result as merging `B` then `A` (including equal raised
exceptions in the degenerate cases). -/
theorem merge_order_independent {V : Type} [DecidableEq V]
    (interval : Nat) (acc A B : Timeline V)
    (h : crossConflictFree interval acc A B = true) :
    mergeSeq interval acc A B = mergeSeq interval acc B A := by
  by_cases hA : A = []
  · subst hA
    simp only [mergeSeq, merge_nil_latest]
    cases hm : merge interval acc B with
    | ok t => rfl
    | assertionError => rfl
    | indexError => rfl
    | zeroDivisionError => rfl
  · by_cases hB : B = []
    · subst hB
      simp only [mergeSeq, merge_nil_latest]
      cases hm : merge interval acc A with
      | ok t => rfl
      | assertionError => rfl
      | indexError => rfl
      | zeroDivisionError => rfl
    · by_cases hacc : acc = []
      · subst hacc
        simp only [mergeSeq, merge_nil_original interval hA,
          merge_nil_original interval hB]
      · by_cases hint : interval = 0
        · subst hint
          simp only [mergeSeq, merge_zero_interval hA hacc,
            merge_zero_interval hB hacc]
        · -- main case: both merges succeed and reduce to write loops
          have hWA := merge_eq_write interval acc A hA hacc hint
          have hWB := merge_eq_write interval acc B hB hacc hint
          have e1 : mergeSeq interval acc A B =
              merge interval (mergeWrite A (mergeIndex interval acc A) acc) B := by
            unfold mergeSeq; rw [hWA]
          have e2 : mergeSeq interval acc B A =
              merge interval (mergeWrite B (mergeIndex interval acc B) acc) A := by
            unfold mergeSeq; rw [hWB]
          rw [e1, e2,
            merge_eq_write interval _ B hB
              (mergeWrite_ne_nil A (mergeIndex interval acc A) hacc) hint,
            merge_eq_write interval _ A hA
              (mergeWrite_ne_nil B (mergeIndex interval acc B) hacc) hint,
            mergeIndex_mergeWrite, mergeIndex_mergeWrite]
          congr 1
          apply List.ext_get?
          intro p
          rw [mergeWrite_get?, mergeWrite_get?, mergeWrite_get?, mergeWrite_get?]
          cases hp : acc.get? p with
          | none => rfl
          | some s =>
              have hplt : p < acc.length := by
                by_contra hge
                push_neg at hge
                rw [List.get?_eq_none.mpr hge] at hp
                exact Option.noConfusion hp
              simp only [Option.map_some']
              have agree := crossConflictFree_agrees h p hplt
              cases hwA : writeVal A (mergeIndex interval acc A) p with
              | none => simp [Option.none_or]
              | some a =>
                  cases hwB : writeVal B (mergeIndex interval acc B) p with
                  | none => simp [Option.none_or]
                  | some b =>
                      have hab : a = b := agree a b hwA hwB
                      subst hab
                      rfl

/-- C5 witness: two concrete non-conflicting passes merged into an
accumulated list in both orders. -/
theorem merge_order_independent_witness :
    crossConflictFree 1000
        [(⟨0, some 1⟩ : Sample Int), ⟨1000, none⟩, ⟨2000, none⟩]
        [⟨0, some 1⟩, ⟨1000, some 4⟩] [⟨0, none⟩, ⟨1000, some 4⟩, ⟨2000, some 9⟩]
        = true ∧
    mergeSeq 1000 [(⟨0, some 1⟩ : Sample Int), ⟨1000, none⟩, ⟨2000, none⟩]
        [⟨0, some 1⟩, ⟨1000, some 4⟩] [⟨0, none⟩, ⟨1000, some 4⟩, ⟨2000, some 9⟩] =
      mergeSeq 1000 [(⟨0, some 1⟩ : Sample Int), ⟨1000, none⟩, ⟨2000, none⟩]
        [⟨0, none⟩, ⟨1000, some 4⟩, ⟨2000, some 9⟩] [⟨0, some 1⟩, ⟨1000, some 4⟩] :=
  ⟨by decide,
   merge_order_independent 1000
     [(⟨0, some 1⟩ : Sample Int), ⟨1000, none⟩, ⟨2000, none⟩]
     [⟨0, some 1⟩, ⟨1000, some 4⟩] [⟨0, none⟩, ⟨1000, some 4⟩, ⟨2000, some 9⟩]
     (by decide)⟩

/-- C2 witness: a concrete conflict-free merge filling one gap while the
filled slot keeps its value. -/
theorem merge_preserves_filled_slots_witness :
    merge 1000 [(⟨0, some 3⟩ : Sample Int), ⟨1000, none⟩]
        [⟨0, some 3⟩, ⟨1000, some 8⟩] = .ok [⟨0, some 3⟩, ⟨1000, some 8⟩] ∧
    conflictAt [(⟨0, some 3⟩ : Sample Int), ⟨1000, none⟩]
      [⟨0, some 3⟩, ⟨1000, some 8⟩]
      (mergeIndex 1000 [(⟨0, some 3⟩ : Sample Int), ⟨1000, none⟩]
        [⟨0, some 3⟩, ⟨1000, some 8⟩]) = false ∧
    ((∀ p : Nat,
        (([(⟨0, some 3⟩ : Sample Int), ⟨1000, some 8⟩].get? p).map Sample.ts) =
        (([(⟨0, some 3⟩ : Sample Int), ⟨1000, none⟩].get? p).map Sample.ts)) ∧
     (∀ (p : Nat) (v : Int),
        ([(⟨0, some 3⟩ : Sample Int), ⟨1000, none⟩].get? p).bind Sample.val = some v →
        ([(⟨0, some 3⟩ : Sample Int), ⟨1000, some 8⟩].get? p).bind Sample.val = some v) ∧
     (∀ p : Nat,
        ([(⟨0, some 3⟩ : Sample Int), ⟨1000, some 8⟩].get? p).bind Sample.val ≠
          ([(⟨0, some 3⟩ : Sample Int), ⟨1000, none⟩].get? p).bind Sample.val →
        ([(⟨0, some 3⟩ : Sample Int), ⟨1000, none⟩].get? p).bind Sample.val = none ∧
        ([(⟨0, some 3⟩ : Sample Int), ⟨1000, some 8⟩].get? p).bind Sample.val =
          writeVal [⟨0, some 3⟩, ⟨1000, some 8⟩]
            (mergeIndex 1000 [(⟨0, some 3⟩ : Sample Int), ⟨1000, none⟩]
              [⟨0, some 3⟩, ⟨1000, some 8⟩]) p)) :=
  ⟨by decide, by decide,
   merge_conflict_free_preserves_filled_slots 1000
     [(⟨0, some 3⟩ : Sample Int), ⟨1000, none⟩]
     [⟨0, some 3⟩, ⟨1000, some 8⟩]
     [⟨0, some 3⟩, ⟨1000, some 8⟩]
     (by decide) (by decide)⟩

/-- Modelled from the spec: `NotificationHandler.prepare`.  It is called by
`SHT3X.fetch_logged_data` (`sht3x.py`) but its definition is missing from
the checked-in sources (`smart_gadget.py` ships an older delegate without
it), so it is modelled from the specification: the pass pre-allocates a
Timeline of length `n = (newest - oldest) / interval` filled with missing
samples at the exact expected timestamps `oldest + interval`, ...,
`oldest + n * interval`; the oldest boundary itself is never retransmitted
and gets no slot. -/
def prepareTimeline (V : Type) (interval oldest newest : Nat) : Timeline V :=
  (List.range ((newest - oldest) / interval)).map
    fun i : Nat => ⟨(oldest : Int) + ((i : Int) + 1) * (interval : Int), none⟩

/-- Modelled from the spec: writing one bulk value into the slot at the
given (possibly out-of-range) index, touching only the slot's value, never
its expected timestamp. -/
def setSlotVal {V : Type} : Timeline V → Int → V → Timeline V
  | [], _, _ => []
  | s :: rest, slot, v =>
      if slot = 0 then ⟨s.ts, some v⟩ :: rest
      else s :: setSlotVal rest (slot - 1) v

/-- Modelled from the spec: a bulk-chunk notification carries a leading run
index followed by consecutive values streaming from newest to oldest; the
engine maps the value at run index `q` to slot `length - q` (run numbering
starts at 1 in the observed firmware), each successive value of the chunk
being one run older. -/
def applyChunk {V : Type} : Timeline V → Nat → List V → Timeline V
  | tl, _, [] => tl
  | tl, runIndex, v :: rest =>
      applyChunk (setSlotVal tl ((tl.length : Int) - runIndex) v) (runIndex + 1) rest

theorem setSlotVal_ts_map {V : Type} :
    ∀ (tl : Timeline V) (slot : Int) (v : V),
      (setSlotVal tl slot v).map Sample.ts = tl.map Sample.ts := by
  intro tl
  induction tl with
  | nil => intro slot v; rfl
  | cons s rest ih =>
      intro slot v
      by_cases h : slot = 0
      · simp [setSlotVal, h]
      · simp [setSlotVal, h, ih]

theorem applyChunk_ts_map {V : Type} :
    ∀ (vals : List V) (tl : Timeline V) (runIndex : Nat),
      (applyChunk tl runIndex vals).map Sample.ts = tl.map Sample.ts := by
  intro vals
  induction vals with
  | nil => intro tl runIndex; rfl
  | cons v rest ih =>
      intro tl runIndex
      rw [applyChunk, ih, setSlotVal_ts_map]

theorem foldChunks_ts_map {V : Type} :
    ∀ (chunks : List (Nat × List V)) (tl : Timeline V),
      ((chunks.foldl (fun t c => applyChunk t c.1 c.2) tl).map Sample.ts) =
        tl.map Sample.ts := by
  intro chunks
  induction chunks with
  | nil => intro tl; rfl
  | cons c rest ih =>
      intro tl
      rw [List.foldl_cons, ih, applyChunk_ts_map]

theorem prepareTimeline_ts_map (V : Type) (interval oldest newest : Nat) :
    (prepareTimeline V interval oldest newest).map Sample.ts =
      (List.range ((newest - oldest) / interval)).map
        fun i : Nat => (oldest : Int) + ((i : Int) + 1) * (interval : Int) := by
  unfold prepareTimeline
  rw [List.map_map]
  rfl

/-- C3: for any positive interval and any window `oldest < newest`, the
timeline a download pass produces — the spec-modelled pre-allocation
followed by any sequence of newest-to-oldest run-indexed bulk chunks — has
exactly `(newest - oldest) / interval` entries (rounded down) whose
timestamps ascend strictly in steps of exactly `interval` milliseconds. -/
theorem download_pass_timeline_shape {V : Type}
    (interval oldest newest : Nat) (chunks : List (Nat × List V))
    (hint : 0 < interval) (hw : oldest < newest) :
    (chunks.foldl (fun t c => applyChunk t c.1 c.2)
        (prepareTimeline V interval oldest newest)).length =
      (newest - oldest) / interval ∧
    List.Chain' (fun a b : Int => b = a + (interval : Int))
      ((chunks.foldl (fun t c => applyChunk t c.1 c.2)
          (prepareTimeline V interval oldest newest)).map Sample.ts) ∧
    List.Chain' (fun a b : Int => a < b)
      ((chunks.foldl (fun t c => applyChunk t c.1 c.2)
          (prepareTimeline V interval oldest newest)).map Sample.ts) := by
  have hts := foldChunks_ts_map chunks (prepareTimeline V interval oldest newest)
  rw [prepareTimeline_ts_map] at hts
  refine ⟨?_, ?_, ?_⟩
  · have hlen := congrArg List.length hts
    simp only [List.length_map, List.length_range] at hlen
    exact hlen
  · rw [hts, List.chain'_map]
    cases hn : (newest - oldest) / interval with
    | zero => simp
    | succ n =>
        rw [List.chain'_range_succ]
        intro m hm
        push_cast
        ring
  · rw [hts, List.chain'_map]
    cases hn : (newest - oldest) / interval with
    | zero => simp
    | succ n =>
        rw [List.chain'_range_succ]
        intro m hm
        have hi : (0 : Int) < (interval : Int) := by exact_mod_cast hint
        push_cast
        nlinarith

/-- C3 witness: a 3-slot window `interval = 10000`, `oldest = 0`,
`newest = 30000` filled by one chunk starting at run index 1. -/
theorem download_pass_timeline_shape_witness :
    0 < 10000 ∧ 0 < 30000 ∧
    ([((1 : Nat), [(5 : Int), 6, 7])].foldl (fun t c => applyChunk t c.1 c.2)
        (prepareTimeline Int 10000 0 30000)).length = (30000 - 0) / 10000 ∧
    List.Chain' (fun a b : Int => b = a + (10000 : Int))
      (([((1 : Nat), [(5 : Int), 6, 7])].foldl (fun t c => applyChunk t c.1 c.2)
          (prepareTimeline Int 10000 0 30000)).map Sample.ts) ∧
    List.Chain' (fun a b : Int => a < b)
      (([((1 : Nat), [(5 : Int), 6, 7])].foldl (fun t c => applyChunk t c.1 c.2)
          (prepareTimeline Int 10000 0 30000)).map Sample.ts) :=
  ⟨by decide, by decide,
   download_pass_timeline_shape 10000 0 30000 [((1 : Nat), [(5 : Int), 6, 7])]
     (by decide) (by decide)⟩

-- ### NotificationHandler (`smart_gadget.py`): per-pass stream completion

/-- One row appended by the bulk branch of
`NotificationHandler.handleNotification`: `[run_number, iso_timestamp, value]`.
The middle column is a pure string rendering of
`newest_timestamp - run_number * logger_interval` and is never read back by
any later code, so it is elided here. -/
structure LogRow (V : Type) where
  run : Int
  value : V
deriving DecidableEq

/-- The mutable state of `NotificationHandler` relevant to one download
pass.  The source stores the interval and the two window bounds in seconds
(`* 1e-3`, an IEEE-754 double); here they are kept as exact milliseconds,
which rescales both sides of the single comparison
`last_timestamp <= oldest_timestamp` by the same factor. -/
structure HandlerState (V : Type) where
  temperatures : List (LogRow V)
  humidities : List (LogRow V)
  temperaturesFinished : Bool
  humiditiesFinished : Bool
  finished : Bool
  loggerInterval : Int
  oldestTimestamp : Int
  newestTimestamp : Int
  previousTemperatureRunNumber : Int
  previousHumidityRunNumber : Int
  temperatureRunNumberRepeats : Nat
  humidityRunNumberRepeats : Nat
deriving DecidableEq

/-- `self.run_number_offset = 1`: the manual says run numbering starts at 0
but firmware v1.3 starts at 1. -/
def runNumberOffset : Int := 1

/-- `self.max_run_number_repeats = 5`. -/
def maxRunNumberRepeats : Nat := 5

/-- The per-pass re-initialization of the handler performed before a
download (`NotificationHandler`'s `initialize` method in
`smart_gadget.py`). -/
def resetHandler (V : Type) (loggerInterval oldestTimestamp newestTimestamp : Int)
    (enableTemperature enableHumidity : Bool) : HandlerState V :=
  { temperatures := []
    humidities := []
    temperaturesFinished := !enableTemperature
    humiditiesFinished := !enableHumidity
    finished := false
    loggerInterval := loggerInterval
    oldestTimestamp := oldestTimestamp
    newestTimestamp := newestTimestamp
    previousTemperatureRunNumber := -1
    previousHumidityRunNumber := -1
    temperatureRunNumberRepeats := 0
    humidityRunNumberRepeats := 0 }

/-- Which of the two stream characteristics sent the notification.  A
notification from any other handle raises `ValueError` before mutating any
state and aborts the wait loop; the claims quantify over notifications on
the two stream handles. -/
inductive StreamKind where
  | temperature
  | humidity
deriving DecidableEq

/-- A notification as dispatched on payload shape by
`handleNotification`: a bulk chunk (`n = (len(data) - 4) // 4 > 0` values
after a leading run number) or a header-only single-value notification. -/
inductive GadgetNote (V : Type) where
  | bulk (stream : StreamKind) (runNumberRaw : Int) (values : List V)
  | single (stream : StreamKind)

/-- The bulk branch of `handleNotification`: append one `[run_number, ...]`
row per value, the run number increasing by one per value. -/
def appendBulkRows {V : Type} (runNumberRaw : Int) (values : List V) :
    List (LogRow V) :=
  values.enum.map fun kv => ⟨runNumberRaw - runNumberOffset + kv.1, kv.2⟩

/-- The single-value branch of `handleNotification` for the temperature
stream (the humidity branch is identical with the roles swapped).  The
`disable_temperature_notifications()` device write performed alongside
setting the finished flag has no effect on the handler state. -/
def handleSingleTemperature {V : Type} (s : HandlerState V) : HandlerState V :=
  match s.temperatures.getLast? with
  | none => { s with finished := s.temperaturesFinished && s.humiditiesFinished }
  | some lastRow =>
      let run := lastRow.run + runNumberOffset
      let lastTimestamp := s.newestTimestamp - run * s.loggerInterval
      let tFin :=
        if lastTimestamp ≤ s.oldestTimestamp ||
            decide (s.temperatureRunNumberRepeats > maxRunNumberRepeats)
        then true else s.temperaturesFinished
      let repeats :=
        if s.previousTemperatureRunNumber == run
        then s.temperatureRunNumberRepeats + 1 else 0
      { s with
        temperaturesFinished := tFin
        temperatureRunNumberRepeats := repeats
        previousTemperatureRunNumber := run
        finished := tFin && s.humiditiesFinished }

/-- The single-value branch of `handleNotification` for the humidity
stream. -/
def handleSingleHumidity {V : Type} (s : HandlerState V) : HandlerState V :=
  match s.humidities.getLast? with
  | none => { s with finished := s.temperaturesFinished && s.humiditiesFinished }
  | some lastRow =>
      let run := lastRow.run + runNumberOffset
      let lastTimestamp := s.newestTimestamp - run * s.loggerInterval
      let hFin :=
        if lastTimestamp ≤ s.oldestTimestamp ||
            decide (s.humidityRunNumberRepeats > maxRunNumberRepeats)
        then true else s.humiditiesFinished
      let repeats :=
        if s.previousHumidityRunNumber == run
        then s.humidityRunNumberRepeats + 1 else 0
      { s with
        humiditiesFinished := hFin
        humidityRunNumberRepeats := repeats
        previousHumidityRunNumber := run
        finished := s.temperaturesFinished && hFin }

/-- `NotificationHandler.handleNotification` as a state transformer. -/
def handleNote {V : Type} (s : HandlerState V) : GadgetNote V → HandlerState V
  | .bulk .temperature runNumberRaw values =>
      { s with temperatures := s.temperatures ++ appendBulkRows runNumberRaw values }
  | .bulk .humidity runNumberRaw values =>
      { s with humidities := s.humidities ++ appendBulkRows runNumberRaw values }
  | .single .temperature => handleSingleTemperature s
  | .single .humidity => handleSingleHumidity s

/-- The pass-completion predicate polled by the wait loop of
`SHT3X.fetch_logged_data` (`sht3x.py`): both per-stream finished flags are
set. -/
def passFinished {V : Type} (s : HandlerState V) : Bool :=
  s.temperaturesFinished && s.humiditiesFinished

theorem handleNote_temperature_mono {V : Type} (s : HandlerState V)
    (note : GadgetNote V) (h : s.temperaturesFinished = true) :
    (handleNote s note).temperaturesFinished = true := by
  cases note with
  | bulk stream runNumberRaw values => cases stream <;> exact h
  | single stream =>
      cases stream with
      | temperature =>
          unfold handleNote handleSingleTemperature
          cases s.temperatures.getLast? with
          | none => exact h
          | some lastRow =>
              simp only
              split
              · rfl
              · exact h
      | humidity =>
          unfold handleNote handleSingleHumidity
          cases s.humidities.getLast? with
          | none => exact h
          | some lastRow => exact h

theorem handleNote_humidity_mono {V : Type} (s : HandlerState V)
    (note : GadgetNote V) (h : s.humiditiesFinished = true) :
    (handleNote s note).humiditiesFinished = true := by
  cases note with
  | bulk stream runNumberRaw values => cases stream <;> exact h
  | single stream =>
      cases stream with
      | humidity =>
          unfold handleNote handleSingleHumidity
          cases s.humidities.getLast? with
          | none => exact h
          | some lastRow =>
              simp only
              split
              · rfl
              · exact h
      | temperature =>
          unfold handleNote handleSingleTemperature
          cases s.temperatures.getLast? with
          | none => exact h
          | some lastRow => exact h

/-- C9: within one download pass, each stream's finished flag is monotone
across any sequence of handled notifications — once set it is never reset —
and the pass-completion predicate polled by the wait loop holds exactly
when both per-stream flags are set. -/
theorem stream_finished_monotone_and_pass_completion {V : Type}
    (notes : List (GadgetNote V)) (s : HandlerState V) :
    (s.temperaturesFinished = true →
      (notes.foldl handleNote s).temperaturesFinished = true) ∧
    (s.humiditiesFinished = true →
      (notes.foldl handleNote s).humiditiesFinished = true) ∧
    passFinished (notes.foldl handleNote s) =
      ((notes.foldl handleNote s).temperaturesFinished &&
        (notes.foldl handleNote s).humiditiesFinished) := by
  refine ⟨?_, ?_, rfl⟩
  · induction notes generalizing s with
    | nil => intro h; exact h
    | cons note rest ih =>
        intro h
        exact ih (handleNote s note) (handleNote_temperature_mono s note h)
  · induction notes generalizing s with
    | nil => intro h; exact h
    | cons note rest ih =>
        intro h
        exact ih (handleNote s note) (handleNote_humidity_mono s note h)

/-- C9 witness: a handler prepared with the temperature stream disabled
(its flag starts `True`) keeps that flag set across a bulk chunk and two
single-value notifications. -/
theorem stream_finished_monotone_witness :
    (resetHandler Int 1000 0 3000 false true).temperaturesFinished = true ∧
    (([GadgetNote.single .temperature,
       GadgetNote.bulk .humidity 1 [(5 : Int)],
       GadgetNote.single .humidity].foldl handleNote
        (resetHandler Int 1000 0 3000 false true)).temperaturesFinished = true) ∧
    passFinished
        ([GadgetNote.single .temperature,
          GadgetNote.bulk .humidity 1 [(5 : Int)],
          GadgetNote.single .humidity].foldl handleNote
          (resetHandler Int 1000 0 3000 false true)) =
      (([GadgetNote.single .temperature,
         GadgetNote.bulk .humidity 1 [(5 : Int)],
         GadgetNote.single .humidity].foldl handleNote
          (resetHandler Int 1000 0 3000 false true)).temperaturesFinished &&
        ([GadgetNote.single .temperature,
          GadgetNote.bulk .humidity 1 [(5 : Int)],
          GadgetNote.single .humidity].foldl handleNote
          (resetHandler Int 1000 0 3000 false true)).humiditiesFinished) :=
  ⟨by decide,
   (stream_finished_monotone_and_pass_completion
      [GadgetNote.single .temperature,
       GadgetNote.bulk .humidity 1 [(5 : Int)],
       GadgetNote.single .humidity]
      (resetHandler Int 1000 0 3000 false true)).1 (by decide),
   (stream_finished_monotone_and_pass_completion
      [GadgetNote.single .temperature,
       GadgetNote.bulk .humidity 1 [(5 : Int)],
       GadgetNote.single .humidity]
      (resetHandler Int 1000 0 3000 false true)).2.2⟩

-- ### Connection supervisor (`service.py`): retry budget

/-- `SmartGadgetService.set_max_attempts`: `max(1, int(max_attempts))`. -/
def set_max_attempts (maxAttempts : Int) : Int :=
  max 1 maxAttempts

/-- The retry loop of `SmartGadgetService._connect` for a device whose
constructor (`self._cls(device, ...)`) raises `BTLEDisconnectError` on
every attempt, counting attempts.  `retries` is `self._retries_remaining`,
which `connect_gadgets` sets to `self._max_attempts` beforehand; each loop
iteration first decrements it, then attempts the connection, and on
failure re-raises once the decremented budget has dropped below `1`.  The
truncated `Nat` subtraction agrees with the source's integer arithmetic
for every start value reachable from `set_max_attempts`. -/
def connectAttemptsAlwaysFail (retries : Nat) : Nat :=
  if retries - 1 < 1 then 1
  else 1 + connectAttemptsAlwaysFail (retries - 1)
termination_by retries
decreasing_by omega

/-- Outcome of `SmartGadgetService.connect_gadgets([mac_address], strict)`
when every connection attempt fails. -/
structure ConnectGadgetsResult where
  attempts : Nat
  raised : Bool
  connected : List String
  failedConnections : List String
deriving DecidableEq

/-- `SmartGadgetService.connect_gadgets` on a single address whose
connection always fails: `_retries_remaining` is reset to `maxAttempts`,
`_connect` raises its final `BTLEDisconnectError` after its attempts, and
the error is re-raised when `strict` else recorded as a failed address. -/
def connect_gadgets (maxAttempts : Nat) (strict : Bool)
    (macAddress : String) : ConnectGadgetsResult :=
  let a := connectAttemptsAlwaysFail maxAttempts
  if strict then ⟨a, true, [], []⟩
  else ⟨a, false, [], [macAddress]⟩

theorem connectAttemptsAlwaysFail_eq (k : Nat) (hk : 1 ≤ k) :
    connectAttemptsAlwaysFail k = k := by
  induction k with
  | zero => omega
  | succ n ih =>
      rw [connectAttemptsAlwaysFail]
      by_cases hn : n < 1
      · have : n = 0 := by omega
        subst this
        simp
      · have h1 : ¬ (n + 1 - 1 < 1) := by omega
        rw [if_neg h1]
        have : n + 1 - 1 = n := by omega
        rw [this, ih (by omega)]
        omega

/-- C4: with the maximum-attempts setting equal to `k` (which
`set_max_attempts` clamps to at least 1), a connect call on a device whose
connection attempt always fails with `BTLEDisconnectError` performs exactly
`k` attempts, then re-raises the last error when `strict` and otherwise
reports the address among the failed connections. -/
theorem connect_retry_budget (k : Nat) (macAddress : String)
    (hk : 1 ≤ k) :
    set_max_attempts k = k ∧
    (connect_gadgets k true macAddress).attempts = k ∧
    (connect_gadgets k false macAddress).attempts = k ∧
    (connect_gadgets k true macAddress).raised = true ∧
    (connect_gadgets k false macAddress).raised = false ∧
    (connect_gadgets k false macAddress).failedConnections = [macAddress] ∧
    (connect_gadgets k true macAddress).connected = [] := by
  have ha := connectAttemptsAlwaysFail_eq k hk
  refine ⟨?_, ?_, ?_, rfl, rfl, rfl, rfl⟩
  · unfold set_max_attempts
    omega
  · simpa [connect_gadgets] using ha
  · simpa [connect_gadgets] using ha

/-- C4 witness: five attempts with a budget of five. -/
theorem connect_retry_budget_witness :
    1 ≤ 5 ∧
    set_max_attempts 5 = 5 ∧
    (connect_gadgets 5 true "aa:bb").attempts = 5 ∧
    (connect_gadgets 5 false "aa:bb").attempts = 5 ∧
    (connect_gadgets 5 true "aa:bb").raised = true ∧
    (connect_gadgets 5 false "aa:bb").raised = false ∧
    (connect_gadgets 5 false "aa:bb").failedConnections = ["aa:bb"] ∧
    (connect_gadgets 5 true "aa:bb").connected = [] :=
  ⟨by decide, connect_retry_budget 5 "aa:bb" (by decide)⟩

-- ### Reconciliation loop of `SHT3XService.fetch_logged_data` (`sht3x.py`)

/-- Result of the reconciliation loop: the accumulated row lists and the
number of download passes performed, or a propagated exception (from
`merge` or from the re-enable computation), also tagged with the passes
performed before it was raised. -/
inductive FetchResult (V : Type) where
  | ok (temperatures humidities : Timeline V) (passesRun : Nat)
  | exn (passesRun : Nat)
deriving DecidableEq

/-- Number of download passes the loop performed. -/
def FetchResult.passesRun {V : Type} : FetchResult V → Nat
  | .ok _ _ n => n
  | .exn n => n

/-- The post-iteration re-enable computation for one stream (`sht3x.py`):
`enable = len(bad_timestamps) > 0`, and when still enabled the stream is
kept only if its newest missing timestamp is newer than the oldest row the
pass delivered (`bad_timestamps[-1] > latest[0][0]`; re-requesting data no
longer in device memory is pointless).  When the bad list is non-empty but
the pass delivered no rows, `latest[0]` raises `IndexError`. -/
def nextEnable {V : Type} (bad : List Int) (latest : Timeline V) : Except Unit Bool :=
  if bad.isEmpty then .ok false
  else
    match latest.head? with
    | none => .error ()
    | some s0 => .ok (decide (bad.getLastD 0 > s0.ts))

/-- The `for iteration in range(num_iterations)` loop of
`SHT3XService.fetch_logged_data`, with `rem` the remaining iterations and
`count` the passes performed so far.  `passes` abstracts
`self._process('fetch_logged_data', ...)` — one download pass, invoked with
the current enable flags; its dependence on the narrowed
`oldest`/`newest` window (which the source recomputes from the bad
timestamps, extended by two intervals on each side) is subsumed by letting
the oracle vary freely with the iteration index.  The first iteration
adopts the pass result; later iterations merge both streams, any raised
exception aborting the call. -/
def fetchIter {V : Type} [DecidableEq V]
    (passes : Nat → Bool → Bool → Timeline V × Timeline V) (interval : Nat) :
    Nat → Nat → Bool → Bool → Timeline V → Timeline V → Nat → FetchResult V
  | _, 0, _, _, temps, hums, count => .ok temps hums count
  | it, rem + 1, et, eh, temps, hums, count =>
      if !et && !eh then .ok temps hums count
      else
        let latestT := (passes it et eh).1
        let latestH := (passes it et eh).2
        if it = 0 then
          if (bad_timestamps latestT).isEmpty && (bad_timestamps latestH).isEmpty then
            .ok latestT latestH (count + 1)
          else
            match nextEnable (bad_timestamps latestT) latestT,
                  nextEnable (bad_timestamps latestH) latestH with
            | .ok et2, .ok eh2 =>
                fetchIter passes interval (it + 1) rem et2 eh2 latestT latestH (count + 1)
            | _, _ => .exn (count + 1)
        else
          match merge interval temps latestT with
          | .ok t2 =>
              match merge interval hums latestH with
              | .ok h2 =>
                  if (bad_timestamps t2).isEmpty && (bad_timestamps h2).isEmpty then
                    .ok t2 h2 (count + 1)
                  else
                    match nextEnable (bad_timestamps t2) latestT,
                          nextEnable (bad_timestamps h2) latestH with
                    | .ok et2, .ok eh2 =>
                        fetchIter passes interval (it + 1) rem et2 eh2 t2 h2 (count + 1)
                    | _, _ => .exn (count + 1)
              | _ => .exn (count + 1)
          | _ => .exn (count + 1)

/-- `SHT3XService.fetch_logged_data`: the loop entered with empty
accumulators and the caller's enable flags. -/
def fetchLoop {V : Type} [DecidableEq V]
    (passes : Nat → Bool → Bool → Timeline V × Timeline V)
    (interval numIterations : Nat) (et eh : Bool) : FetchResult V :=
  fetchIter passes interval 0 numIterations et eh [] [] 0

theorem nextEnable_self_isOk {V : Type} (l : Timeline V) :
    ∃ b, nextEnable (bad_timestamps l) l = .ok b := by
  cases l with
  | nil => exact ⟨false, rfl⟩
  | cons s rest =>
      unfold nextEnable
      by_cases h : (bad_timestamps (s :: rest)).isEmpty
      · rw [if_pos h]; exact ⟨false, rfl⟩
      · rw [if_neg h]
        exact ⟨_, rfl⟩

theorem fetchIter_passesRun_le {V : Type} [DecidableEq V]
    (passes : Nat → Bool → Bool → Timeline V × Timeline V) (interval : Nat) :
    ∀ (rem it : Nat) (et eh : Bool) (temps hums : Timeline V) (count : Nat),
      (fetchIter passes interval it rem et eh temps hums count).passesRun ≤
        count + rem := by
  intro rem
  induction rem with
  | zero =>
      intro it et eh temps hums count
      simp [fetchIter, FetchResult.passesRun]
  | succ rem ih =>
      intro it et eh temps hums count
      simp only [fetchIter]
      split
      · simp only [FetchResult.passesRun]; omega
      · split
        · split
          · simp only [FetchResult.passesRun]; omega
          · split
            · exact Nat.le_trans (ih _ _ _ _ _ _) (by omega)
            · simp only [FetchResult.passesRun]; omega
        · split
          · split
            · split
              · simp only [FetchResult.passesRun]; omega
              · split
                · exact Nat.le_trans (ih _ _ _ _ _ _) (by omega)
                · simp only [FetchResult.passesRun]; omega
            · simp only [FetchResult.passesRun]; omega
          · simp only [FetchResult.passesRun]; omega

theorem fetchIter_early_stop {V : Type} [DecidableEq V]
    (passes : Nat → Bool → Bool → Timeline V × Timeline V) (interval : Nat)
    (it rem : Nat) (temps hums : Timeline V) (count : Nat)
    (t2 h2 : Timeline V) (hit : it ≠ 0)
    (hmt : merge interval temps (passes it true true).1 = .ok t2)
    (hmh : merge interval hums (passes it true true).2 = .ok h2)
    (hbt : bad_timestamps t2 = []) (hbh : bad_timestamps h2 = []) :
    fetchIter passes interval it (rem + 1) true true temps hums count =
      .ok t2 h2 (count + 1) := by
  simp only [fetchIter, Bool.not_true, Bool.and_false, Bool.false_eq_true,
    if_false, if_neg hit, hmt, hmh, hbt, hbh, List.isEmpty_nil, Bool.and_self,
    if_true]

theorem fetchLoop_one_iteration {V : Type} [DecidableEq V]
    (passes : Nat → Bool → Bool → Timeline V × Timeline V) (interval : Nat) :
    fetchLoop passes interval 1 true true =
      .ok (passes 0 true true).1 (passes 0 true true).2 1 := by
  unfold fetchLoop
  by_cases hbe : ((bad_timestamps (passes 0 true true).1).isEmpty &&
      (bad_timestamps (passes 0 true true).2).isEmpty) = true
  · simp [fetchIter, hbe]
  · obtain ⟨bt, hbt⟩ := nextEnable_self_isOk (passes 0 true true).1
    obtain ⟨bh, hbh⟩ := nextEnable_self_isOk (passes 0 true true).2
    simp [fetchIter, hbe, hbt, hbh]

/-- C8: the reconciliation loop (a) performs at most `num_iterations`
download passes; (b) stops immediately, with no further passes, as soon as
a merged iteration leaves no missing timestamp in either stream; and
(c) with `num_iterations = 1` it returns directly after the single pass,
missing entries intact, without raising. -/
theorem reconciliation_pass_budget {V : Type} [DecidableEq V]
    (passes : Nat → Bool → Bool → Timeline V × Timeline V)
    (interval numIterations : Nat) (hn : 1 ≤ numIterations) :
    (fetchLoop passes interval numIterations true true).passesRun ≤ numIterations ∧
    (∀ (it rem : Nat) (temps hums : Timeline V) (count : Nat)
        (t2 h2 : Timeline V), it ≠ 0 →
      merge interval temps (passes it true true).1 = .ok t2 →
      merge interval hums (passes it true true).2 = .ok h2 →
      bad_timestamps t2 = [] → bad_timestamps h2 = [] →
      fetchIter passes interval it (rem + 1) true true temps hums count =
        .ok t2 h2 (count + 1)) ∧
    (numIterations = 1 →
      fetchLoop passes interval numIterations true true =
        .ok (passes 0 true true).1 (passes 0 true true).2 1) := by
  refine ⟨?_, ?_, ?_⟩
  · have h := fetchIter_passesRun_le passes interval numIterations 0 true true [] [] 0
    simpa [fetchLoop] using h
  · intro it rem temps hums count t2 h2 hit hmt hmh hbt hbh
    exact fetchIter_early_stop passes interval it rem temps hums count t2 h2
      hit hmt hmh hbt hbh
  · intro h1
    subst h1
    exact fetchLoop_one_iteration passes interval

/-- C8 witness: a single-iteration run over a pass that leaves the oldest
slot missing returns that pass unchanged after exactly one pass. -/
theorem reconciliation_pass_budget_witness :
    1 ≤ 1 ∧
    ((fetchLoop (fun _ _ _ => ([(⟨0, none⟩ : Sample Int), ⟨1000, some 2⟩],
        [(⟨0, some 3⟩ : Sample Int)])) 1000 1 true true).passesRun ≤ 1 ∧
     (∀ (it rem : Nat) (temps hums : Timeline Int) (count : Nat)
          (t2 h2 : Timeline Int), it ≠ 0 →
        merge 1000 temps ((fun (_ : Nat) (_ _ : Bool) =>
            ([(⟨0, none⟩ : Sample Int), ⟨1000, some 2⟩],
             [(⟨0, some 3⟩ : Sample Int)])) it true true).1 = .ok t2 →
        merge 1000 hums ((fun (_ : Nat) (_ _ : Bool) =>
            ([(⟨0, none⟩ : Sample Int), ⟨1000, some 2⟩],
             [(⟨0, some 3⟩ : Sample Int)])) it true true).2 = .ok h2 →
        bad_timestamps t2 = [] → bad_timestamps h2 = [] →
        fetchIter (fun _ _ _ => ([(⟨0, none⟩ : Sample Int), ⟨1000, some 2⟩],
            [(⟨0, some 3⟩ : Sample Int)])) 1000 it (rem + 1) true true temps hums
            count = .ok t2 h2 (count + 1)) ∧
     ((1 : Nat) = 1 →
       fetchLoop (fun _ _ _ => ([(⟨0, none⟩ : Sample Int), ⟨1000, some 2⟩],
           [(⟨0, some 3⟩ : Sample Int)])) 1000 1 true true =
         .ok [(⟨0, none⟩ : Sample Int), ⟨1000, some 2⟩]
           [(⟨0, some 3⟩ : Sample Int)] 1)) :=
  ⟨by decide,
   reconciliation_pass_budget
     (fun _ _ _ => ([(⟨0, none⟩ : Sample Int), ⟨1000, some 2⟩],
       [(⟨0, some 3⟩ : Sample Int)])) 1000 1 (by decide)⟩

-- ### `SHT3X.fetch_logged_data` (`sht3x.py`): device-operation trace

/-- The device operations `SHT3X.fetch_logged_data` can perform, in
program order. -/
inductive DeviceOp where
  | enableTemperatureNotifications
  | enableHumidityNotifications
  | setSyncTime
  | setOldestTimestamp
  | setNewestTimestamp
  | readLoggerInterval
  | readOldestTimestamp
  | readNewestTimestamp
  | writeStartDownload
  | waitForNotifications
  | writeStopDownload
  | disableTemperatureNotifications
  | disableHumidityNotifications
deriving DecidableEq

/-- The sequence of device operations `SHT3X.fetch_logged_data` performs.
With both streams disabled the function returns before touching the
device.  Otherwise: enable the requested notifications, write the sync
time and the window bounds (`newest` only when the caller supplied one),
read back the device's actual interval and window, start the download,
poll `waitForNotifications(1)` until the delegate reports both streams
finished (`waitCount` abstracts the number of extra polls; the loop body
runs at least once), stop the download and disable the requested
notifications. -/
def sht3xFetchOps (enableTemperature enableHumidity newestGiven : Bool)
    (waitCount : Nat) : List DeviceOp :=
  if !enableTemperature && !enableHumidity then []
  else
    (if enableTemperature then [DeviceOp.enableTemperatureNotifications] else []) ++
    (if enableHumidity then [DeviceOp.enableHumidityNotifications] else []) ++
    [DeviceOp.setSyncTime, DeviceOp.setOldestTimestamp] ++
    (if newestGiven then [DeviceOp.setNewestTimestamp] else []) ++
    [DeviceOp.readLoggerInterval, DeviceOp.readOldestTimestamp,
      DeviceOp.readNewestTimestamp, DeviceOp.writeStartDownload] ++
    List.replicate (waitCount + 1) DeviceOp.waitForNotifications ++
    [DeviceOp.writeStopDownload] ++
    (if enableTemperature then [DeviceOp.disableTemperatureNotifications] else []) ++
    (if enableHumidity then [DeviceOp.disableHumidityNotifications] else [])

/-- The pair `SHT3X.fetch_logged_data` returns: the early-return pair of
empty lists when both streams are disabled, otherwise the delegate's
accumulated row lists (abstracted by `delegateT`, `delegateH`). -/
def sht3xFetchResult {V : Type} (enableTemperature enableHumidity : Bool)
    (delegateT delegateH : Timeline V) : Timeline V × Timeline V :=
  if !enableTemperature && !enableHumidity then ([], [])
  else (delegateT, delegateH)

/-- C10: calling `fetch_logged_data` with both streams disabled returns the
pair of two empty lists immediately — the gadget-level call performs no
device operation at all, and the service-level reconciliation loop breaks
before its first pass, returning empty accumulators after zero passes. -/
theorem fetch_disabled_streams_noop {V : Type} [DecidableEq V]
    (newestGiven : Bool) (waitCount : Nat) (delegateT delegateH : Timeline V)
    (passes : Nat → Bool → Bool → Timeline V × Timeline V)
    (interval numIterations : Nat) :
    sht3xFetchOps false false newestGiven waitCount = [] ∧
    sht3xFetchResult false false delegateT delegateH = ([], []) ∧
    fetchLoop passes interval numIterations false false = .ok [] [] 0 := by
  refine ⟨rfl, rfl, ?_⟩
  cases numIterations with
  | zero => rfl
  | succ n => rfl
